import Mathlib

/-!
Shallow embedding of the Distort Lab distortion engine and the parts of its
filter library needed here (src/app/engine.js, src/app/utils.js,
src/app/canvas.js, src/app/main.js, src/app/filters.js,
src/filters/mobius.js, src/filters/twirl.js, src/filters/angular.js).

JavaScript numbers are modelled exactly as rationals.  The two non-finite
JS values that the warp pipeline actually meets are modelled by dedicated
constructors: `undefined` (a missing record field; `undefined == null` is
true in JS) and `NaN` (`NaN == null` is false).  `Math.sin`, `Math.cos`,
`Math.sqrt` and `Math.hypot` are abstracted as function parameters where a
filter uses them; every theorem below either avoids them or holds for all
such functions.
-/

namespace DistortLab

/-- JavaScript value flowing through the warp pipeline: a finite number
(modelled exactly as a rational), `NaN`, or `undefined`. -/
inductive JSV where
  | undef : JSV
  | nan : JSV
  | num : ℚ → JSV
deriving DecidableEq

/-- JS addition; any non-finite operand yields NaN. -/
def jsAdd : JSV → JSV → JSV
  | .num a, .num b => .num (a + b)
  | _, _ => .nan

/-- JS subtraction; any non-finite operand yields NaN. -/
def jsSub : JSV → JSV → JSV
  | .num a, .num b => .num (a - b)
  | _, _ => .nan

/-- JS multiplication; any non-finite operand yields NaN (also 0 * NaN = NaN). -/
def jsMul : JSV → JSV → JSV
  | .num a, .num b => .num (a * b)
  | _, _ => .nan

/-- Math.floor; NaN/undefined propagate to NaN. -/
def jsFloor : JSV → JSV
  | .num q => .num (⌊q⌋ : ℚ)
  | _ => .nan

/-- Math.abs; NaN/undefined propagate to NaN. -/
def jsAbs : JSV → JSV
  | .num a => .num |a|
  | _ => .nan

/-- JS `<`; any comparison involving NaN/undefined is false. -/
def jsLt : JSV → JSV → Bool
  | .num a, .num b => decide (a < b)
  | _, _ => false

/-- JS `<=`; any comparison involving NaN/undefined is false. -/
def jsLe : JSV → JSV → Bool
  | .num a, .num b => decide (a ≤ b)
  | _, _ => false

/-- Math.max; NaN poisons the result (JS Math.max returns NaN then). -/
def jsMax : JSV → JSV → JSV
  | .num a, .num b => .num (max a b)
  | _, _ => .nan

/-- Math.min; NaN poisons the result. -/
def jsMin : JSV → JSV → JSV
  | .num a, .num b => .num (min a b)
  | _, _ => .nan

/-- Truncation toward zero, as used by the JS `%` operator and ToInt32. -/
def ratTrunc (q : ℚ) : ℤ := if q < 0 then -(⌊-q⌋) else ⌊q⌋

/-- JS remainder `a % n` (truncated remainder; `x % 0` is NaN). -/
def jsRem : JSV → JSV → JSV
  | .num a, .num n => if n = 0 then .nan else .num (a - n * (ratTrunc (a / n) : ℚ))
  | _, _ => .nan

/-- Wrap an integer into the signed 32-bit range, as JS ToInt32 does. -/
def wrap32 (z : ℤ) : ℤ :=
  let m := z % 4294967296
  if m < 2147483648 then m else m - 4294967296

/-- JS ToInt32 of a value: truncate then wrap; NaN/undefined become 0. -/
def jsToInt32 : JSV → ℤ
  | .num q => wrap32 (ratTrunc q)
  | _ => 0

/-- JS `v << 2` as used for the pixel index computation. -/
def jsShl2 (v : JSV) : ℤ := wrap32 (jsToInt32 v * 4)

/-- Store into a `Uint8ClampedArray` cell: clamp to [0,255], round with
halves to even; NaN and undefined store as 0. -/
def clampRoundByte (q : ℚ) : ℕ :=
  if q ≤ 0 then 0
  else if 255 ≤ q then 255
  else
    let f := ⌊q⌋
    let r := q - (f : ℚ)
    if r < 1 / 2 then f.toNat
    else if 1 / 2 < r then f.toNat + 1
    else if f % 2 = 0 then f.toNat else f.toNat + 1

/-- Conversion applied when a JS value is written into a `Uint8ClampedArray`. -/
def toByte : JSV → ℕ
  | .num q => clampRoundByte q
  | _ => 0

/-- JS `x == null`, the check the engine uses on map-result fields:
true exactly for undefined (and null, which we identify with it). -/
def jsIsNullish : JSV → Bool
  | .undef => true
  | _ => false

/-- One RGBA texel (channel values as stored in the byte buffers). -/
structure RGBA where
  r : ℕ
  g : ℕ
  b : ℕ
  a : ℕ
deriving DecidableEq

/-- Engine `fetch` (src/app/engine.js lines 156-165): last-resort clamp of
both coordinates, then read 4 bytes at `(y*W + x) << 2`.  The computed
index is nonnegative in every reachable case (after clamping, finite
coordinates are in range and NaN gives index 0), so `Int.toNat` is exact.
This pure function computes the four bytes the source writes into the
single shared scratch buffer `_px`; the sharing itself (the source returns
a reference to `_px`, not a copy) is modelled by `fetchM` below. -/
def fetch (src : List ℕ) (W H : ℤ) (x y : JSV) : RGBA :=
  let xc := if jsLt x (.num 0) then JSV.num 0
            else if jsLe (.num (W : ℚ)) x then JSV.num ((W : ℚ) - 1) else x
  let yc := if jsLt y (.num 0) then JSV.num 0
            else if jsLe (.num (H : ℚ)) y then JSV.num ((H : ℚ) - 1) else y
  let i := (jsShl2 (jsAdd (jsMul yc (.num (W : ℚ))) xc)).toNat
  ⟨src.getD i 0, src.getD (i + 1) 0, src.getD (i + 2) 0, src.getD (i + 3) 0⟩

/-- Engine `lerp4` (src/app/engine.js lines 167-173): the blend is written
into a shared `Uint8ClampedArray`, so every channel passes through the
clamped-rounding byte store.  This pure function computes the four bytes
written into the shared `_lr` buffer from the values its operands hold on
entry; that is exact even when an operand aliases `_lr` itself, because
channel `i` is read only in the statement that writes channel `i` (JS
evaluates the right-hand side before assigning).  The sharing (the source
returns a reference to `_lr`) is modelled by `lerp4M` below. -/
def lerp4 (p q : RGBA) (t : JSV) : RGBA :=
  ⟨toByte (jsAdd (.num (p.r : ℚ)) (jsMul (jsSub (.num (q.r : ℚ)) (.num (p.r : ℚ))) t)),
   toByte (jsAdd (.num (p.g : ℚ)) (jsMul (jsSub (.num (q.g : ℚ)) (.num (p.g : ℚ))) t)),
   toByte (jsAdd (.num (p.b : ℚ)) (jsMul (jsSub (.num (q.b : ℚ)) (.num (p.b : ℚ))) t)),
   toByte (jsAdd (.num (p.a : ℚ)) (jsMul (jsSub (.num (q.a : ℚ)) (.num (p.a : ℚ))) t))⟩

/-- Engine `mod` helper (src/app/engine.js lines 197-201). -/
def modJS (i n : JSV) : JSV :=
  let m := jsRem i n
  if jsLt m (.num 0) then jsAdd m n else m

/-- Engine `mirrorIndex` (src/app/engine.js lines 203-209). -/
def mirrorIndex (i n : JSV) : JSV :=
  match n with
  | .num nq =>
      if nq ≤ 1 then .num 0
      else
        let p := nq - 1
        let m := jsRem (jsAbs i) (.num (2 * p))
        if jsLt (.num p) m then jsSub (.num (2 * p)) m else m
  | _ => .nan

/-- Integer-level value of the engine's `mirrorIndex` on integer inputs
with `n ≥ 2` (the Euclidean remainder of `|i|` agrees with the JS
truncated remainder because `|i| ≥ 0`): reflect `|i| mod 2(n−1)` at `n−1`. -/
def mirrorZ (i n : ℤ) : ℤ :=
  let p := n - 1
  let m := |i| % (2 * p)
  if p < m then 2 * p - m else m

/-- Result record of the engine's `resolveEdge`. -/
structure EdgeRes where
  x : JSV
  y : JSV
  t : Bool
deriving DecidableEq

/-- Engine `resolveEdge` (src/app/engine.js lines 175-195).  The source's
`switch` lets `case "transparent"` fall through to `default`, so any
unrecognized mode shares the transparent branch. -/
def resolveEdge (W H : ℤ) (x y : JSV) (edge : String) : EdgeRes :=
  if jsLe (.num 0) x && jsLt x (.num (W : ℚ)) && jsLe (.num 0) y && jsLt y (.num (H : ℚ)) then
    ⟨x, y, false⟩
  else if edge = "clamp" then
    ⟨(if jsLt x (.num 0) then JSV.num 0
      else if jsLe (.num (W : ℚ)) x then JSV.num ((W : ℚ) - 1) else x),
     (if jsLt y (.num 0) then JSV.num 0
      else if jsLe (.num (H : ℚ)) y then JSV.num ((H : ℚ) - 1) else y), false⟩
  else if edge = "wrap" then
    ⟨modJS x (.num (W : ℚ)), modJS y (.num (H : ℚ)), false⟩
  else if edge = "mirror" then
    ⟨mirrorIndex x (.num (W : ℚ)), mirrorIndex y (.num (H : ℚ)), false⟩
  else
    ⟨.num (-1), .num (-1), true⟩

/-- Contents of the module-level scratch buffers of src/app/engine.js
lines 152-154: `_px` (written by every `fetch`) and `_lr` (written by
every `lerp4`).  `_ZERO` is a third, never-written constant buffer. -/
structure Scratch where
  px : RGBA
  lr : RGBA
deriving DecidableEq

/-- A reference to one of the engine's three module-level buffers; this is
what `fetch`, `lerp4` and the transparent early return of `sampleBilinear`
actually hand back in the source. -/
inductive BufRef where
  | px : BufRef
  | lr : BufRef
  | zero : BufRef
deriving DecidableEq

/-- Read the buffer a reference points to (`_ZERO` is all zeros). -/
def deref (s : Scratch) : BufRef → RGBA
  | .px => s.px
  | .lr => s.lr
  | .zero => ⟨0, 0, 0, 0⟩

/-- Engine `fetch` with its buffer effect: overwrite `_px` with the four
bytes read and return the reference to `_px`. -/
def fetchM (s : Scratch) (src : List ℕ) (W H : ℤ) (x y : JSV) : Scratch × BufRef :=
  ({ s with px := fetch src W H x y }, .px)

/-- Engine `lerp4` with its buffer effect: overwrite `_lr` with the blend
of the values the operand references hold on entry and return the
reference to `_lr`. -/
def lerp4M (s : Scratch) (a b : BufRef) (t : JSV) : Scratch × BufRef :=
  ({ s with lr := lerp4 (deref s a) (deref s b) t }, .lr)

/-- Engine `sampleBilinear` (src/app/engine.js lines 129-150) with the
module-level scratch buffers made explicit, including the source's
sequential overwriting of `x0,y0,x1,y1` by the edge resolutions.  Because
`fetch` always returns the `_px` reference, `p00`, `p10`, `p01` and `p11`
all alias `_px`, which after the fourth call holds the `(x1,y1)` corner;
likewise `r0` and `r1` both alias `_lr`.  The function returns the final
scratch state plus the reference the source returns. -/
def sampleBilinearRun (s : Scratch) (src : List ℕ) (W H : ℤ) (u v : JSV)
    (edge : String) : Scratch × BufRef :=
  let x0 := jsFloor u
  let y0 := jsFloor v
  let tx := jsSub u x0
  let ty := jsSub v y0
  let xA := jsAdd x0 (.num 1)
  let yA := jsAdd y0 (.num 1)
  let ok00 := resolveEdge W H x0 y0 edge
  let x0b := ok00.x
  let y0b := ok00.y
  let ok10 := resolveEdge W H xA y0b edge
  let x1b := ok10.x
  let ok01 := resolveEdge W H x0b yA edge
  let y1b := ok01.y
  let ok11 := resolveEdge W H x1b y1b edge
  if edge = "transparent" && (ok00.t || ok10.t || ok01.t || ok11.t) then (s, .zero)
  else
    let f00 := fetchM s src W H x0b y0b
    let f10 := fetchM f00.1 src W H x1b y0b
    let f01 := fetchM f10.1 src W H x0b y1b
    let f11 := fetchM f01.1 src W H x1b y1b
    let l0 := lerp4M f11.1 f00.2 f10.2 tx
    let l1 := lerp4M l0.1 f01.2 f11.2 tx
    lerp4M l1.1 l0.2 l1.2 ty

/-- The RGBA value a `sampleBilinear` call yields (the bytes the caller
reads out of the returned buffer reference before anything else writes to
it).  Every non-transparent path fully overwrites `_px` and then `_lr`
before they are read, so the value does not depend on the scratch contents
left by earlier calls — `sampleBilinearRun_state_irrelevant` below proves
this — and the canonical zero scratch can be used. -/
def sampleBilinear (src : List ℕ) (W H : ℤ) (u v : JSV) (edge : String) : RGBA :=
  let r := sampleBilinearRun ⟨⟨0, 0, 0, 0⟩, ⟨0, 0, 0, 0⟩⟩ src W H u v edge
  deref r.1 r.2

/-- Record returned by a filter's `map`: source coordinates plus the two
optional alpha fields seen in the repository (`a`, read by the engine, and
`aOverride`, returned by the pole sentinels of mobius.js and angular.js).
An absent field is `undef`. -/
structure MapResult where
  u : JSV
  v : JSV
  a : JSV
  aOverride : JSV
deriving DecidableEq

/-- Outcome of one map invocation as the engine's try/catch sees it. -/
inductive MapCall where
  | threw : MapCall
  | ret : Option MapResult → MapCall

/-- Engine `identityMap` / `_tmpReuse` result (src/app/engine.js 124-127):
`{u: x, v: y, a: 1}`. -/
def identityMapAt (x y : ℤ) : MapResult := ⟨.num (x : ℚ), .num (y : ℚ), .num 1, .undef⟩

/-- One iteration of the engine's per-pixel loop body
(src/app/engine.js lines 69-90): recover a thrown or missing-coordinate
map result to the identity mapping, bilinear-sample, and write RGBA with
the alpha channel multiplied by the optional `a` field. -/
def cpuWarpPixel (sPix : List ℕ) (W H : ℤ) (edge : String) (x y : ℤ) (call : MapCall) : RGBA :=
  let m : MapResult :=
    match call with
    | .threw => identityMapAt x y
    | .ret none => identityMapAt x y
    | .ret (some mr) =>
        if jsIsNullish mr.u || jsIsNullish mr.v then identityMapAt x y else mr
  let aMul := if jsIsNullish m.a then JSV.num 1 else m.a
  let rgba := sampleBilinear sPix W H m.u m.v edge
  ⟨rgba.r, rgba.g, rgba.b,
   toByte (jsMax (.num 0) (jsMin (.num 255) (jsMul (.num (rgba.a : ℚ)) aMul)))⟩

/-- Offscreen source canvas: dimensions plus decoded RGBA8 bytes. -/
structure SourceCanvas where
  width : ℤ
  height : ℤ
  data : List ℕ

/-- The slice of the global `state` record the engine reads during a pass
(src/app/state.js, src/app/canvas.js): the source canvas, the revision
counter bumped by `commitToSource`, and the edge mode (`st.edgeMode ||
"clamp"`; an absent value is `none`). -/
structure EngineState where
  sourceCanvas : SourceCanvas
  sourceVersion : ℤ
  edgeMode : Option String

/-- Result of one `cpuWarp` render pass.  `decodedSource` records whether
the pass read the source pixels afresh; the source calls
`sCtx.getImageData(0, 0, W, H)` unconditionally at the top of every pass
(src/app/engine.js lines 56-59), so it is always true. -/
structure PassResult where
  dest : List RGBA
  destW : ℤ
  destH : ℤ
  decodedSource : Bool

/-- Engine `cpuWarp` (src/app/engine.js lines 44-94): destination buffer is
`createImageData(W, H)` at the source dimensions, filled row-major by the
per-pixel loop.  `mapFn` abstracts the wrapped mapper for the active
filter. -/
def cpuWarp (st : EngineState) (mapFn : ℤ → ℤ → MapCall) : PassResult :=
  let W := st.sourceCanvas.width
  let H := st.sourceCanvas.height
  let sPix := st.sourceCanvas.data
  let edge := st.edgeMode.getD "clamp"
  { dest := (List.range H.toNat).flatMap (fun y => (List.range W.toNat).map (fun x =>
      cpuWarpPixel sPix W H edge (x : ℤ) (y : ℤ) (mapFn (x : ℤ) (y : ℤ))))
    destW := W
    destH := H
    decodedSource := true }

/-- Canvas `commitToSource` as it affects the engine state
(src/app/canvas.js lines 109-117): swap in the new source and bump the
revision counter. -/
def commitToSource (st : EngineState) (newSource : SourceCanvas) : EngineState :=
  { st with sourceCanvas := newSource, sourceVersion := st.sourceVersion + 1 }

/-- Main `setScale` (src/app/main.js lines 119-122):
`state.viewScale = Math.max(0.05, Math.min(8, newScale || 1))`.
The `|| 1` default fires on 0 (and NaN, not representable here). -/
def setScale (s : ℚ) : ℚ := max (1 / 20) (min 8 (if s = 0 then 1 else s))

/-- RGBA texel of a flat byte buffer at integer coordinates, the reference
value for bilinear exactness: bytes at index `(v*W + u) * 4`. -/
def texel (src : List ℕ) (W : ℤ) (u v : ℤ) : RGBA :=
  let i := ((v * W + u) * 4).toNat
  ⟨src.getD i 0, src.getD (i + 1) 0, src.getD (i + 2) 0, src.getD (i + 3) 0⟩

/-- Utils `clamp` (src/app/utils.js line 1). -/
def clamp (v lo hi : ℚ) : ℚ := max lo (min hi v)

/-- Truncated rational remainder, JS `a % n` on finite numbers (the `n = 0`
case, NaN in JS, is unreachable in the branches proved about). -/
def ratRem (a n : ℚ) : ℚ := if n = 0 then 0 else a - n * (ratTrunc (a / n) : ℚ)

/-- Utils `wrap` (src/app/utils.js line 2). -/
def wrap (v n : ℚ) : ℚ :=
  let w := ratRem v n
  if w < 0 then w + n else w

/-- Utils `mirror` (src/app/utils.js lines 3-6). -/
def mirror (v n : ℚ) : ℚ :=
  let t := ratRem |ratRem v (2 * n) + 2 * n| (2 * n)
  if t ≤ n then t else 2 * n - t

/-- Result record of utils `edgeResolve`. -/
structure UEdgeRes where
  out : Bool
  ux : ℚ
  vy : ℚ
deriving DecidableEq

/-- Utils `edgeResolve` (src/app/utils.js lines 12-27).  Note: unlike the
engine's own `resolveEdge`, its unrecognized-mode fallback is the clamp
behaviour; this helper is however not called by the render path. -/
def edgeResolve (u v : ℚ) (W H : ℤ) (mode : String) : UEdgeRes :=
  if mode = "transparent" then
    if u < 0 ∨ v < 0 ∨ (W : ℚ) - 1 < u ∨ (H : ℚ) - 1 < v then ⟨true, 0, 0⟩
    else ⟨false, u, v⟩
  else if mode = "clamp" then
    ⟨false, clamp u 0 ((W : ℚ) - 1), clamp v 0 ((H : ℚ) - 1)⟩
  else if mode = "wrap" then
    ⟨false, wrap u (W : ℚ), wrap v (H : ℚ)⟩
  else if mode = "mirror" then
    ⟨false, mirror u ((W : ℚ) - 1), mirror v ((H : ℚ) - 1)⟩
  else
    ⟨false, clamp u 0 ((W : ℚ) - 1), clamp v 0 ((H : ℚ) - 1)⟩

/-- Parameter value as stored in a resolved parameter record. -/
inductive PVal where
  | num : ℚ → PVal
  | str : String → PVal
  | bool : Bool → PVal
deriving DecidableEq

/-- One entry of a filter's declared parameter schema: key and default. -/
structure ParamSpec where
  key : String
  dflt : PVal

/-- Filters `defaultParamsFor` (src/app/filters.js lines 56-60): collect
each declared parameter's default. -/
def defaultParamsFor (schema : List ParamSpec) : List (String × PVal) :=
  schema.map (fun s => (s.key, s.dflt))

/-- JS property read on a parameter record: `undefined` (none) if absent. -/
def lookupParam (p : List (String × PVal)) (k : String) : Option PVal :=
  p.lookup k

/-- Engine parameter resolution for the active filter
(src/app/engine.js lines 49-50): `st.params[fid] || {}`, passed to the
mapper unchanged — no derived geometry is added anywhere in the engine. -/
def engineResolvedParams (stParams : List (String × List (String × PVal)))
    (fid : String) : List (String × PVal) :=
  (stParams.lookup fid).getD []

/-- Declared parameter schema of the twirl filter
(src/filters/twirl.js lines 6-13): keys and defaults. -/
def twirlParams : List ParamSpec :=
  [⟨"angle", .num 120⟩, ⟨"radius", .num 60⟩, ⟨"centerX", .num 50⟩,
   ⟨"centerY", .num 50⟩, ⟨"falloff", .str "quad"⟩, ⟨"edgeMode", .str "clamp"⟩]

/-- Resolved parameters of the Möbius filter as its `map` reads them
(src/filters/mobius.js lines 44-56): complex coefficients, normalize flag,
scale, and the `p.cx`, `p.cy` frame centre the map dereferences. -/
structure MobiusParams where
  aRe : ℚ
  aIm : ℚ
  bRe : ℚ
  bIm : ℚ
  cRe : ℚ
  cIm : ℚ
  dRe : ℚ
  dIm : ℚ
  normalize : Bool
  scale : ℚ
  cx : ℚ
  cy : ℚ

/-- Coefficient bundle after the optional determinant normalization. -/
structure MCoef where
  aRe : ℚ
  aIm : ℚ
  bRe : ℚ
  bIm : ℚ
  cRe : ℚ
  cIm : ℚ
  dRe : ℚ
  dIm : ℚ

/-- Möbius `map` (src/filters/mobius.js lines 44-103).  `hypotF` and
`sqrtF` abstract `Math.hypot` and `Math.sqrt` (used only inside the
determinant normalization).  With exact rational arithmetic the final
`isFinite` fallback of the source can never fire, since every quotient
taken is by a provably nonzero denominator. -/
def mobiusMap (hypotF : ℚ → ℚ → ℚ) (sqrtF : ℚ → ℚ)
    (x y : ℚ) (W H : ℤ) (p : MobiusParams) : MapResult :=
  let cx := p.cx
  let cy := p.cy
  let S := max (1 / 1000000) ((p.scale / 100) * (min (W : ℚ) (H : ℚ) * (1 / 2)))
  let wRe := (x - cx) / S
  let wIm := (y - cy) / S
  let co : MCoef :=
    if p.normalize then
      let adRe := p.aRe * p.dRe - p.aIm * p.dIm
      let adIm := p.aRe * p.dIm + p.aIm * p.dRe
      let bcRe := p.bRe * p.cRe - p.bIm * p.cIm
      let bcIm := p.bRe * p.cIm + p.bIm * p.cRe
      let detAbs := hypotF (adRe - bcRe) (adIm - bcIm)
      if 1 / 1000000 < detAbs then
        let s := 1 / sqrtF detAbs
        ⟨p.aRe * s, p.aIm * s, p.bRe * s, p.bIm * s,
         p.cRe * s, p.cIm * s, p.dRe * s, p.dIm * s⟩
      else
        ⟨p.aRe, p.aIm, p.bRe, p.bIm, p.cRe, p.cIm, p.dRe, p.dIm⟩
    else
      ⟨p.aRe, p.aIm, p.bRe, p.bIm, p.cRe, p.cIm, p.dRe, p.dIm⟩
  let dwRe := co.dRe * wRe - co.dIm * wIm
  let dwIm := co.dRe * wIm + co.dIm * wRe
  let numRe := dwRe - co.bRe
  let numIm := dwIm - co.bIm
  let cwRe := co.cRe * wRe - co.cIm * wIm
  let cwIm := co.cRe * wIm + co.cIm * wRe
  let denRe := -cwRe + co.aRe
  let denIm := -cwIm + co.aIm
  let denAbs2 := denRe * denRe + denIm * denIm
  if denAbs2 < 1 / 1000000000000 then
    ⟨.num ((W : ℚ) * 10), .num ((H : ℚ) * 10), .undef, .num 0⟩
  else
    let zRe := (numRe * denRe + numIm * denIm) / denAbs2
    let zIm := (numIm * denRe - numRe * denIm) / denAbs2
    ⟨.num (cx + zRe * S), .num (cy + zIm * S), .undef, .undef⟩

/-- Iteration budget of the angular filter's solver
(src/filters/angular.js line 92):
`Math.max(1, Math.min(20, Math.floor(Number(p.iterations) || 6)))`.
The `|| 6` default fires on 0 (and NaN, not representable here). -/
def angularMaxIters (iterations : ℚ) : ℕ :=
  let v : ℚ := if iterations = 0 then 6 else iterations
  (max 1 (min 20 ⌊v⌋)).toNat

/-- One step of the angular solver loop body
(src/filters/angular.js lines 94-109): a Newton step on
`g(θ) = θ + A·sin(mθ + φ) − Θ`, replaced by a fixed-point step when the
derivative magnitude drops below `1e-4`.  `sinF`, `cosF` abstract
`Math.sin`, `Math.cos`.  With exact rational arithmetic the source's
`isFinite` reset can never fire (the Newton quotient has a provably
nonzero denominator in its branch). -/
def angularStep (sinF cosF : ℚ → ℚ) (A m phi Theta th : ℚ) : ℚ :=
  let t := m * th + phi
  let s := sinF t
  let c := cosF t
  let g := th + A * s - Theta
  let gp := 1 + A * m * c
  if |gp| < 1 / 10000 then Theta - A * s else th - g / gp

/-- The angular solver after `k` loop iterations, from the initial guess
`θ₀ = Θ` (src/filters/angular.js lines 91-109). -/
def angularSolve (sinF cosF : ℚ → ℚ) (A m phi Theta : ℚ) : ℕ → ℚ
  | 0 => Theta
  | k + 1 => angularStep sinF cosF A m phi Theta (angularSolve sinF cosF A m phi Theta k)

/-! Helper lemmas about the JS value operations. -/

theorem jsLe_num_true {a b : ℚ} (h : a ≤ b) : jsLe (.num a) (.num b) = true := by
  simp [jsLe, h]

theorem jsLe_num_false {a b : ℚ} (h : ¬ a ≤ b) : jsLe (.num a) (.num b) = false := by
  simp [jsLe, h]

theorem jsLt_num_true {a b : ℚ} (h : a < b) : jsLt (.num a) (.num b) = true := by
  simp [jsLt, h]

theorem jsLt_num_false {a b : ℚ} (h : ¬ a < b) : jsLt (.num a) (.num b) = false := by
  simp [jsLt, h]

theorem ratTrunc_intCast (n : ℤ) : ratTrunc ((n : ℤ) : ℚ) = n := by
  unfold ratTrunc
  split
  · rw [← Int.cast_neg, Int.floor_intCast]; omega
  · rw [Int.floor_intCast]

theorem wrap32_small {z : ℤ} (h0 : 0 ≤ z) (h1 : z < 2147483648) : wrap32 z = z := by
  unfold wrap32
  rw [Int.emod_eq_of_lt h0 (by omega)]
  simp [h1]

theorem clampRoundByte_natCast (n : ℕ) (h : n ≤ 255) : clampRoundByte (n : ℚ) = n := by
  unfold clampRoundByte
  rcases Nat.eq_zero_or_pos n with h0 | h0
  · subst h0; norm_num
  · rcases eq_or_lt_of_le h with h255 | h255
    · subst h255; norm_num
    · rw [if_neg (by exact_mod_cast Nat.not_le.mpr h0),
        if_neg (by exact_mod_cast Nat.not_le.mpr h255)]
      have hf : ⌊(n : ℚ)⌋ = (n : ℤ) := by exact_mod_cast Int.floor_natCast n
      simp only [hf]
      rw [if_pos (by push_cast; norm_num)]
      simp

theorem toByte_natCast (n : ℕ) (h : n ≤ 255) : toByte (.num (n : ℚ)) = n := by
  simpa [toByte] using clampRoundByte_natCast n h

theorem lerp4_num_zero (p q : RGBA)
    (hr : p.r ≤ 255) (hg : p.g ≤ 255) (hb : p.b ≤ 255) (ha : p.a ≤ 255) :
    lerp4 p q (.num 0) = p := by
  unfold lerp4
  simp only [jsMul, jsSub, jsAdd, mul_zero, add_zero]
  rw [toByte_natCast _ hr, toByte_natCast _ hg, toByte_natCast _ hb, toByte_natCast _ ha]

/-! Helper lemmas about the engine's edge resolver and sampler. -/

theorem resolveEdge_inBounds (W H : ℤ) (a b : ℚ) (edge : String)
    (h1 : 0 ≤ a) (h2 : a < (W : ℚ)) (h3 : 0 ≤ b) (h4 : b < (H : ℚ)) :
    resolveEdge W H (.num a) (.num b) edge = ⟨.num a, .num b, false⟩ := by
  unfold resolveEdge
  rw [if_pos]
  rw [jsLe_num_true h1, jsLt_num_true h2, jsLe_num_true h3, jsLt_num_true h4]
  rfl

theorem resolveEdge_default (W H : ℤ) (x y : JSV) (edge : String)
    (hc : edge ≠ "clamp") (hw : edge ≠ "wrap") (hm : edge ≠ "mirror")
    (h : (jsLe (.num 0) x && jsLt x (.num (W : ℚ)) &&
          jsLe (.num 0) y && jsLt y (.num (H : ℚ))) = false) :
    resolveEdge W H x y edge = ⟨.num (-1), .num (-1), true⟩ := by
  unfold resolveEdge
  rw [if_neg (by simp [h]), if_neg hc, if_neg hw, if_neg hm]

theorem guard_false_of_x_big (W H : ℤ) (x y : JSV) (h : jsLt x (.num (W : ℚ)) = false) :
    (jsLe (.num 0) x && jsLt x (.num (W : ℚ)) &&
     jsLe (.num 0) y && jsLt y (.num (H : ℚ))) = false := by
  cases hb : (jsLe (.num 0) x) <;> simp [h, hb]

theorem guard_false_of_y_big (W H : ℤ) (x y : JSV) (h : jsLt y (.num (H : ℚ)) = false) :
    (jsLe (.num 0) x && jsLt x (.num (W : ℚ)) &&
     jsLe (.num 0) y && jsLt y (.num (H : ℚ))) = false := by
  simp [h]

theorem fetch_inBounds (src : List ℕ) (W H u v : ℤ)
    (hu0 : 0 ≤ u) (huW : u < W) (hv0 : 0 ≤ v) (hvH : v < H)
    (hsize : H * W * 4 ≤ 2147483648) :
    fetch src W H (.num (u : ℚ)) (.num (v : ℚ)) = texel src W u v := by
  have hW0 : 0 < W := lt_of_le_of_lt hu0 huW
  have hidx0 : 0 ≤ v * W + u := by positivity
  have hidx1 : v * W + u < H * W := by nlinarith
  unfold fetch
  rw [jsLt_num_false (by exact_mod_cast not_lt.mpr hu0),
      jsLe_num_false (by exact_mod_cast not_le.mpr huW),
      jsLt_num_false (by exact_mod_cast not_lt.mpr hv0),
      jsLe_num_false (by exact_mod_cast not_le.mpr hvH)]
  simp only [if_neg Bool.false_ne_true]
  simp only [jsMul, jsAdd, jsShl2, jsToInt32]
  have hcast : (v : ℚ) * (W : ℚ) + (u : ℚ) = ((v * W + u : ℤ) : ℚ) := by push_cast; ring
  rw [hcast, ratTrunc_intCast]
  rw [wrap32_small hidx0 (by nlinarith), wrap32_small (by positivity) (by nlinarith)]
  rfl

/-! Claim theorems. -/

/-- C2: the claim says the engine injects derived geometry (`cx`, `cy`,
`radiusPx`) into the resolved parameter record before every map call.  The
code never does: the record handed to the mapper is `st.params[fid]`
unchanged, whose keys are exactly the filter's declared schema keys
(twirl shown with its defaults), so `p.cx`, `p.cy` and `p.radiusPx` are
all undefined at every map invocation. -/
theorem engine_params_lack_injected_geometry :
    lookupParam (engineResolvedParams [("twirl", defaultParamsFor twirlParams)] "twirl")
      "cx" = none ∧
    lookupParam (engineResolvedParams [("twirl", defaultParamsFor twirlParams)] "twirl")
      "cy" = none ∧
    lookupParam (engineResolvedParams [("twirl", defaultParamsFor twirlParams)] "twirl")
      "radiusPx" = none ∧
    (engineResolvedParams [("twirl", defaultParamsFor twirlParams)] "twirl").map Prod.fst
      = ["angle", "radius", "centerX", "centerY", "falloff", "edgeMode"] := by
  decide

/-- C5, counterexample: with a 10×10 source and view scale 2 (which
`setScale` leaves at 2, inside its clamp range), the claim predicts a
destination buffer of width `round(10 × 2) = 20`; the engine's pass
produces width 10 — the source width — because the destination
`createImageData(W, H)` uses the source dimensions and the view scale is
applied only to the CSS presentation. -/
theorem dest_dims_ignore_viewScale :
    setScale 2 = 2 ∧
    (cpuWarp ⟨⟨10, 10, []⟩, 0, some "clamp"⟩
        (fun x y => .ret (some (identityMapAt x y)))).destW = 10 ∧
    (10 : ℤ) ≠ 20 := by
  refine ⟨by norm_num [setScale], rfl, by decide⟩

/-- C5, amended: the destination pixel buffer of a render pass always has
exactly the source dimensions, for every view scale; `setScale` does clamp
the view scale into [0.05, 8], but the clamped scale never reaches the
buffer allocation. -/
theorem dest_dims_equal_source_and_scale_clamped
    (st : EngineState) (mapFn : ℤ → ℤ → MapCall) (s : ℚ) :
    (cpuWarp st mapFn).destW = st.sourceCanvas.width ∧
    (cpuWarp st mapFn).destH = st.sourceCanvas.height ∧
    1 / 20 ≤ setScale s ∧ setScale s ≤ 8 := by
  refine ⟨rfl, rfl, le_max_left _ _, ?_⟩
  unfold setScale
  exact max_le (by norm_num) (min_le_left _ _)

/-- C3, counterexample: the claim says the second of two render passes
over an unchanged source does not re-decode the source buffer.  The engine
has no source cache at all: every pass calls `getImageData` afresh, so the
second pass decodes again (shown at a concrete 2×2 source; `cpuWarp` is
pure, so the second pass is the same application). -/
theorem second_pass_redecodes :
    (cpuWarp ⟨⟨2, 2, [10, 20, 30, 255, 40, 50, 60, 255, 70, 80, 90, 255, 101, 102, 103, 255]⟩,
        0, some "clamp"⟩
      (fun x y => .ret (some (identityMapAt x y)))).decodedSource = true ∧
    true ≠ false := by
  exact ⟨rfl, by decide⟩

/-- C3, amended: the engine decodes the source buffer on every render
pass, including the one after a commit; there is no source cache, and the
`sourceVersion` counter bumped by `commitToSource` is never consulted by
the engine (a pass over a state with any other version value is the very
same computation). -/
theorem every_pass_decodes_version_unused
    (st : EngineState) (mapFn : ℤ → ℤ → MapCall) (v : ℤ) (ns : SourceCanvas) :
    (cpuWarp st mapFn).decodedSource = true ∧
    (cpuWarp (commitToSource st ns) mapFn).decodedSource = true ∧
    cpuWarp { st with sourceVersion := v } mapFn = cpuWarp st mapFn ∧
    (commitToSource st ns).sourceVersion = st.sourceVersion + 1 := by
  exact ⟨rfl, rfl, rfl, rfl⟩

set_option maxHeartbeats 4000000 in
/-- C1, counterexample: the Möbius map at a pole returns the sentinel
`{u: 10·W, v: 10·H, aOverride: 0}`, but in clamp edge mode the engine
writes alpha 255, not the override 0: the engine reads only a field named
`a`, so `aOverride` is ignored and the sentinel coordinate is clamped to
the bottom-right corner texel with its full alpha.  (Coefficients
`a = c = 0` put the pole everywhere; normalize is off, so the abstracted
`hypot`/`sqrt` are irrelevant.) -/
theorem mobius_pole_clamp_alpha_not_overridden :
    (mobiusMap (fun _ _ => 0) (fun _ => 0) 0 0 2 2
        ⟨0, 0, 0, 0, 0, 0, 1, 0, false, 120, 1, 1⟩).aOverride = JSV.num 0 ∧
    cpuWarpPixel [10, 20, 30, 255, 40, 50, 60, 255, 70, 80, 90, 255, 101, 102, 103, 255]
        2 2 "clamp" 0 0
        (.ret (some (mobiusMap (fun _ _ => 0) (fun _ => 0) 0 0 2 2
          ⟨0, 0, 0, 0, 0, 0, 1, 0, false, 120, 1, 1⟩)))
      = ⟨101, 102, 103, 255⟩ ∧
    (255 : ℕ) ≠ 0 := by
  refine ⟨by norm_num [mobiusMap], ?_, by decide⟩
  norm_num [cpuWarpPixel, mobiusMap, sampleBilinear, sampleBilinearRun, fetchM, lerp4M,
    deref, resolveEdge, fetch, lerp4, jsAdd, jsSub,
    jsMul, jsFloor, jsLt, jsLe, jsMax, jsMin, jsShl2, jsToInt32, wrap32, ratTrunc,
    clampRoundByte, toByte, jsIsNullish,
    show ("clamp" = "wrap") = False from by simp,
    show ("clamp" = "mirror") = False from by simp,
    show ("clamp" = "transparent") = False from by simp]
  all_goals try simp
  all_goals try norm_num

set_option maxHeartbeats 4000000 in
/-- C4, counterexample: the claim says a map result with non-finite
coordinates is recovered to the identity mapping.  It is not: the engine
only checks `== null`, so a `{u: NaN, v: NaN}` result flows into the
sampler, where the NaN-tainted blend stores 0 into every
`Uint8ClampedArray` channel — the pixel becomes (0,0,0,0), while the
identity mapping at the same pixel yields the source texel (40,50,60,255). -/
theorem nan_map_result_not_identity :
    cpuWarpPixel [10, 20, 30, 255, 40, 50, 60, 255] 2 1 "clamp" 1 0
        (.ret (some ⟨.nan, .nan, .undef, .undef⟩)) = ⟨0, 0, 0, 0⟩ ∧
    cpuWarpPixel [10, 20, 30, 255, 40, 50, 60, 255] 2 1 "clamp" 1 0
        (.ret (some (identityMapAt 1 0))) = ⟨40, 50, 60, 255⟩ ∧
    (RGBA.mk 0 0 0 0) ≠ ⟨40, 50, 60, 255⟩ := by
  refine ⟨?_, ?_, by decide⟩ <;>
  norm_num [cpuWarpPixel, sampleBilinear, sampleBilinearRun, fetchM, lerp4M, deref,
    resolveEdge, fetch, lerp4, jsAdd, jsSub,
    jsMul, jsFloor, jsLt, jsLe, jsMax, jsMin, jsShl2, jsToInt32, wrap32, ratTrunc,
    clampRoundByte, toByte, jsIsNullish, identityMapAt,
    show ("clamp" = "wrap") = False from by simp,
    show ("clamp" = "mirror") = False from by simp,
    show ("clamp" = "transparent") = False from by simp]
  all_goals try simp
  all_goals try norm_num

set_option maxHeartbeats 2000000 in
/-- C6, counterexample: under the unrecognized edge mode "bogus", the
coordinate (5, 0) on a 3×1 source is not resolved as clamp would resolve
it.  Clamp saturates per-axis and samples texel (2,0) = (9,9,9,255); the
engine's `resolveEdge` default branch instead replaces the out-of-bounds
corner by (−1,−1), and since the transparent early-return compares the
literal string "transparent", sampling proceeds and `fetch` clamps (−1,−1)
to texel (0,0) = (1,1,1,255). -/
theorem unknown_edge_mode_not_clamp :
    sampleBilinear [1, 1, 1, 255, 2, 2, 2, 255, 9, 9, 9, 255] 3 1
        (.num 5) (.num 0) "bogus" = ⟨1, 1, 1, 255⟩ ∧
    sampleBilinear [1, 1, 1, 255, 2, 2, 2, 255, 9, 9, 9, 255] 3 1
        (.num 5) (.num 0) "clamp" = ⟨9, 9, 9, 255⟩ ∧
    (RGBA.mk 1 1 1 255) ≠ ⟨9, 9, 9, 255⟩ := by
  refine ⟨?_, ?_, by decide⟩ <;>
  norm_num [sampleBilinear, sampleBilinearRun, fetchM, lerp4M, deref,
    resolveEdge, fetch, lerp4, jsAdd, jsSub, jsMul, jsFloor,
    jsLt, jsLe, jsShl2, jsToInt32, wrap32, ratTrunc, clampRoundByte, toByte,
    show ("bogus" = "clamp") = False from by simp,
    show ("bogus" = "wrap") = False from by simp,
    show ("bogus" = "mirror") = False from by simp,
    show ("bogus" = "transparent") = False from by simp,
    show ("clamp" = "transparent") = False from by simp]
  all_goals try simp
  all_goals try norm_num

theorem getD_le_255 {l : List ℕ} (h : ∀ b ∈ l, b ≤ 255) (i : ℕ) : l.getD i 0 ≤ 255 := by
  rw [List.getD_eq_getElem?_getD]
  cases hv : l[i]? with
  | none => simp
  | some b => simpa using h b (List.getElem?_mem hv)

theorem texel_le_255 {src : List ℕ} (h : ∀ b ∈ src, b ≤ 255) (W u v : ℤ) :
    (texel src W u v).r ≤ 255 ∧ (texel src W u v).g ≤ 255 ∧
    (texel src W u v).b ≤ 255 ∧ (texel src W u v).a ≤ 255 := by
  unfold texel
  exact ⟨getD_le_255 h _, getD_le_255 h _, getD_le_255 h _, getD_le_255 h _⟩

/-- C1, amended: the engine's per-pixel write honors an alpha field only
under the name `a`; the `aOverride` field of the filters' pole sentinels
never influences the written pixel (first conjunct), so a pole pixel is
transparent only through the edge handling of the far-outside sentinel
coordinate: in transparent edge mode the sentinel yields (0,0,0,0)
(second conjunct), while clamp mode samples a border texel with unchanged
alpha (see the counterexample). -/
theorem engine_ignores_aOverride_pole_transparent_only
    (src : List ℕ) (W H : ℤ) (edge : String) (x y : ℤ) (m : MapResult) (o1 o2 : JSV)
    (hW : 1 ≤ W) (hH : 1 ≤ H) :
    cpuWarpPixel src W H edge x y (.ret (some { m with aOverride := o1 }))
      = cpuWarpPixel src W H edge x y (.ret (some { m with aOverride := o2 })) ∧
    cpuWarpPixel src W H "transparent" x y
        (.ret (some ⟨.num ((W : ℚ) * 10), .num ((H : ℚ) * 10), .undef, .num 0⟩))
      = ⟨0, 0, 0, 0⟩ := by
  constructor
  · cases m with
    | mk u v a o =>
      by_cases h : (jsIsNullish u || jsIsNullish v) = true
      · simp [cpuWarpPixel, h]
      · simp [cpuWarpPixel, h]
  · have hWc : ((W : ℚ) * 10) = ((W * 10 : ℤ) : ℚ) := by push_cast; ring
    have hHc : ((H : ℚ) * 10) = ((H * 10 : ℤ) : ℚ) := by push_cast; ring
    have hx : jsLt (.num ((W * 10 : ℤ) : ℚ)) (.num (W : ℚ)) = false :=
      jsLt_num_false (by exact_mod_cast not_lt.mpr (by omega : W ≤ W * 10))
    have h00 : resolveEdge W H (.num ((W * 10 : ℤ) : ℚ)) (.num ((H * 10 : ℤ) : ℚ))
        "transparent" = ⟨.num (-1), .num (-1), true⟩ :=
      resolveEdge_default W H _ _ _ (by decide) (by decide) (by decide)
        (guard_false_of_x_big W H _ _ hx)
    have hfW : ⌊(W : ℚ) * 10⌋ = W * 10 := by rw [hWc, Int.floor_intCast]
    have hfH : ⌊(H : ℚ) * 10⌋ = H * 10 := by rw [hHc, Int.floor_intCast]
    simp only [cpuWarpPixel, jsIsNullish, Bool.or_self, Bool.false_eq_true, if_false,
      sampleBilinear, sampleBilinearRun, deref, jsFloor, hfW, hfH, h00,
      Bool.true_or, Bool.or_true]
    norm_num [jsMul, jsMax, jsMin, toByte, clampRoundByte]

/-- C1, witness for the amended theorem at a concrete input. -/
theorem engine_ignores_aOverride_witness :
    cpuWarpPixel [1, 2, 3, 255] 1 1 "transparent" 0 0
        (.ret (some ⟨.num ((1 : ℚ) * 10), .num ((1 : ℚ) * 10), .undef, .num 0⟩))
      = ⟨0, 0, 0, 0⟩ :=
  (engine_ignores_aOverride_pole_transparent_only [1, 2, 3, 255] 1 1 "clamp" 0 0
    ⟨.num 0, .num 0, .undef, .undef⟩ .undef .undef (by norm_num) (by norm_num)).2

/-- C4, amended: the engine recovers a pixel to the identity mapping when
the map invocation throws or returns a result whose coordinates are
missing (null/undefined) — and the pass always covers every destination
pixel — but a non-finite (NaN) coordinate is not recovered (see the
counterexample). -/
theorem throw_or_missing_recovers_identity
    (src : List ℕ) (W H : ℤ) (edge : String) (x y : ℤ) (call : MapCall)
    (h : call = .threw ∨ call = .ret none ∨
      ∃ mr, call = .ret (some mr) ∧ (jsIsNullish mr.u = true ∨ jsIsNullish mr.v = true)) :
    cpuWarpPixel src W H edge x y call
      = cpuWarpPixel src W H edge x y (.ret (some (identityMapAt x y))) ∧
    ∀ (st : EngineState) (mapFn : ℤ → ℤ → MapCall),
      ((cpuWarp st mapFn).dest).length
        = st.sourceCanvas.height.toNat * st.sourceCanvas.width.toNat := by
  constructor
  · have hid : (jsIsNullish (identityMapAt x y).u || jsIsNullish (identityMapAt x y).v) = false := by
      simp [identityMapAt, jsIsNullish]
    rcases h with h | h | ⟨mr, hc, hm⟩
    · subst h
      simp only [cpuWarpPixel, hid, Bool.false_eq_true, if_false]
    · subst h
      simp only [cpuWarpPixel, hid, Bool.false_eq_true, if_false]
    · subst hc
      have hcond : (jsIsNullish mr.u || jsIsNullish mr.v) = true := by
        rcases hm with hm | hm <;> simp [hm]
      simp only [cpuWarpPixel, hid, hcond, Bool.false_eq_true, if_false, if_true]
  · intro st mapFn
    simp [cpuWarp, List.length_flatMap, Function.comp_def, List.map_const, Nat.mul_comm]

/-- C4, witness for the amended theorem at a concrete input. -/
theorem throw_or_missing_recovers_identity_witness :
    cpuWarpPixel [10, 20, 30, 255, 40, 50, 60, 255] 2 1 "clamp" 1 0 .threw
      = cpuWarpPixel [10, 20, 30, 255, 40, 50, 60, 255] 2 1 "clamp" 1 0
          (.ret (some (identityMapAt 1 0))) :=
  (throw_or_missing_recovers_identity [10, 20, 30, 255, 40, 50, 60, 255] 2 1 "clamp" 1 0
    .threw (Or.inl rfl)).1

/-- C6, amended: an unrecognized edge-mode string is not treated as clamp
by the render path: the engine's `resolveEdge` sends it to the very same
default branch as "transparent" (coordinates replaced by (−1,−1), flag
set), and since `sampleBilinear` compares the literal string
"transparent", the flagged corners then get fetched at the clamped corner
(0,0) — see the counterexample; only the utils `edgeResolve` helper, which
the render path never calls, falls back to clamp. -/
theorem unknown_edge_mode_transparent_branch
    (W H : ℤ) (x y : JSV) (u v : ℚ) (mode : String)
    (hc : mode ≠ "clamp") (hw : mode ≠ "wrap") (hm : mode ≠ "mirror")
    (ht : mode ≠ "transparent") :
    resolveEdge W H x y mode = resolveEdge W H x y "transparent" ∧
    edgeResolve u v W H mode = edgeResolve u v W H "clamp" := by
  constructor
  · unfold resolveEdge
    by_cases hin : (jsLe (.num 0) x && jsLt x (.num (W : ℚ)) &&
        jsLe (.num 0) y && jsLt y (.num (H : ℚ))) = true
    · simp only [hin, if_true]
    · simp only [Bool.not_eq_true] at hin
      simp [hin, hc, hw, hm,
        show ("transparent" = "clamp") = False from by simp,
        show ("transparent" = "wrap") = False from by simp,
        show ("transparent" = "mirror") = False from by simp]
  · unfold edgeResolve
    simp [ht, hc, hw, hm,
      show ("clamp" = "transparent") = False from by simp]

/-- C6, witness for the amended theorem at a concrete input. -/
theorem unknown_edge_mode_transparent_branch_witness :
    resolveEdge 3 1 (JSV.num 5) (JSV.num 0) "bogus"
      = resolveEdge 3 1 (JSV.num 5) (JSV.num 0) "transparent" :=
  (unknown_edge_mode_transparent_branch 3 1 (JSV.num 5) (JSV.num 0) 5 0 "bogus"
    (by decide) (by decide) (by decide) (by decide)).1

theorem sampleBilinear_transparent_out (src : List ℕ) (W H : ℤ) (u v : ℚ)
    (h : ⌊u⌋ < 0 ∨ W ≤ ⌊u⌋ + 1 ∨ ⌊v⌋ < 0 ∨ H ≤ ⌊v⌋ + 1) :
    sampleBilinear src W H (.num u) (.num v) "transparent" = ⟨0, 0, 0, 0⟩ := by
  by_cases hin : 0 ≤ ⌊u⌋ ∧ ⌊u⌋ < W ∧ 0 ≤ ⌊v⌋ ∧ ⌊v⌋ < H
  · obtain ⟨ha0, haW, hb0, hbH⟩ := hin
    have e00 : resolveEdge W H (.num ((⌊u⌋ : ℤ) : ℚ)) (.num ((⌊v⌋ : ℤ) : ℚ)) "transparent"
        = ⟨.num ((⌊u⌋ : ℤ) : ℚ), .num ((⌊v⌋ : ℤ) : ℚ), false⟩ :=
      resolveEdge_inBounds W H _ _ _ (by exact_mod_cast ha0) (by exact_mod_cast haW)
        (by exact_mod_cast hb0) (by exact_mod_cast hbH)
    rcases h with h | h | h | h
    · omega
    · -- last-column corner out: the second resolution flags transparency
      have hx1 : jsLt (.num ((⌊u⌋ : ℚ) + 1)) (.num (W : ℚ)) = false := by
        apply jsLt_num_false
        push_cast
        exact_mod_cast not_lt.mpr (by exact_mod_cast h)
      have e10 : resolveEdge W H (.num ((⌊u⌋ : ℚ) + 1)) (.num ((⌊v⌋ : ℤ) : ℚ)) "transparent"
          = ⟨.num (-1), .num (-1), true⟩ :=
        resolveEdge_default W H _ _ _ (by decide) (by decide) (by decide)
          (guard_false_of_x_big W H _ _ hx1)
      simp [sampleBilinear, sampleBilinearRun, deref, jsFloor, jsAdd, jsSub, e00, e10]
    · omega
    · -- last-row corner out: the third resolution flags transparency
      by_cases hu1 : ⌊u⌋ + 1 < W
      · have e10 : resolveEdge W H (.num ((⌊u⌋ : ℚ) + 1)) (.num ((⌊v⌋ : ℤ) : ℚ)) "transparent"
            = ⟨.num ((⌊u⌋ : ℚ) + 1), .num ((⌊v⌋ : ℤ) : ℚ), false⟩ := by
          have := resolveEdge_inBounds W H ((⌊u⌋ : ℚ) + 1) ((⌊v⌋ : ℤ) : ℚ) "transparent"
            (by positivity) (by push_cast; exact_mod_cast hu1)
            (by exact_mod_cast hb0) (by exact_mod_cast hbH)
          exact this
        have hy1 : jsLt (.num ((⌊v⌋ : ℚ) + 1)) (.num (H : ℚ)) = false := by
          apply jsLt_num_false
          push_cast
          exact_mod_cast not_lt.mpr (by exact_mod_cast h)
        have e01 : resolveEdge W H (.num ((⌊u⌋ : ℤ) : ℚ)) (.num ((⌊v⌋ : ℚ) + 1)) "transparent"
            = ⟨.num (-1), .num (-1), true⟩ :=
          resolveEdge_default W H _ _ _ (by decide) (by decide) (by decide)
            (guard_false_of_y_big W H _ _ hy1)
        simp [sampleBilinear, sampleBilinearRun, deref, jsFloor, jsAdd, jsSub, e00, e10, e01]
      · have hx1 : jsLt (.num ((⌊u⌋ : ℚ) + 1)) (.num (W : ℚ)) = false := by
          apply jsLt_num_false
          push_cast
          exact_mod_cast not_lt.mpr (by exact_mod_cast not_lt.mp hu1)
        have e10 : resolveEdge W H (.num ((⌊u⌋ : ℚ) + 1)) (.num ((⌊v⌋ : ℤ) : ℚ)) "transparent"
            = ⟨.num (-1), .num (-1), true⟩ :=
          resolveEdge_default W H _ _ _ (by decide) (by decide) (by decide)
            (guard_false_of_x_big W H _ _ hx1)
        simp [sampleBilinear, sampleBilinearRun, deref, jsFloor, jsAdd, jsSub, e00, e10]
  · -- the base corner itself is out of bounds
    have hg : (jsLe (.num 0) (.num ((⌊u⌋ : ℤ) : ℚ)) &&
        jsLt (.num ((⌊u⌋ : ℤ) : ℚ)) (.num (W : ℚ)) &&
        jsLe (.num 0) (.num ((⌊v⌋ : ℤ) : ℚ)) &&
        jsLt (.num ((⌊v⌋ : ℤ) : ℚ)) (.num (H : ℚ))) = false := by
      simp only [jsLe, jsLt]
      rcases not_and_or.mp hin with hx | hrest
      · simp [show ¬ ((0:ℚ) ≤ ((⌊u⌋ : ℤ) : ℚ)) from by exact_mod_cast hx]
      rcases not_and_or.mp hrest with hx | hrest
      · simp [show ¬ (((⌊u⌋ : ℤ) : ℚ) < (W : ℚ)) from by exact_mod_cast hx]
      rcases not_and_or.mp hrest with hx | hx
      · simp [show ¬ ((0:ℚ) ≤ ((⌊v⌋ : ℤ) : ℚ)) from by exact_mod_cast hx]
      · simp [show ¬ (((⌊v⌋ : ℤ) : ℚ) < (H : ℚ)) from by exact_mod_cast hx]
    have e00 : resolveEdge W H (.num ((⌊u⌋ : ℤ) : ℚ)) (.num ((⌊v⌋ : ℤ) : ℚ)) "transparent"
        = ⟨.num (-1), .num (-1), true⟩ :=
      resolveEdge_default W H _ _ _ (by decide) (by decide) (by decide) hg
    simp [sampleBilinear, sampleBilinearRun, deref, jsFloor, jsAdd, jsSub, e00]

/-- C9: in transparent edge mode, the bilinear sampler returns fully
transparent (0,0,0,0) whenever any one of the four enclosing corner texels
lies outside the image; consequently a mapped coordinate lying exactly on
the last column (u = W−1) or last row (v = H−1) — itself in bounds —
produces a fully transparent destination pixel, because its +1 neighbour
falls at W (resp. H). -/
theorem transparent_any_corner_outside_zero
    (src : List ℕ) (W H : ℤ) (u v : ℚ)
    (h : ⌊u⌋ < 0 ∨ W ≤ ⌊u⌋ + 1 ∨ ⌊v⌋ < 0 ∨ H ≤ ⌊v⌋ + 1) :
    sampleBilinear src W H (.num u) (.num v) "transparent" = ⟨0, 0, 0, 0⟩ ∧
    sampleBilinear src W H (.num ((W : ℚ) - 1)) (.num v) "transparent" = ⟨0, 0, 0, 0⟩ ∧
    sampleBilinear src W H (.num u) (.num ((H : ℚ) - 1)) "transparent" = ⟨0, 0, 0, 0⟩ := by
  refine ⟨sampleBilinear_transparent_out src W H u v h, ?_, ?_⟩
  · refine sampleBilinear_transparent_out src W H _ v (Or.inr (Or.inl ?_))
    have : ⌊(W : ℚ) - 1⌋ = W - 1 := by
      rw [show ((W : ℚ) - 1) = ((W - 1 : ℤ) : ℚ) from by push_cast; ring, Int.floor_intCast]
    omega
  · refine sampleBilinear_transparent_out src W H u _ (Or.inr (Or.inr (Or.inr ?_)))
    have : ⌊(H : ℚ) - 1⌋ = H - 1 := by
      rw [show ((H : ℚ) - 1) = ((H - 1 : ℤ) : ℚ) from by push_cast; ring, Int.floor_intCast]
    omega

/-- C9, witness at a concrete input: on a 2×2 source, the in-bounds lattice
point (1, 0) — last column — maps to a fully transparent pixel. -/
theorem transparent_any_corner_outside_zero_witness :
    sampleBilinear [10, 20, 30, 255, 40, 50, 60, 255, 70, 80, 90, 255, 101, 102, 103, 255]
        2 2 (.num 1) (.num 0) "transparent" = ⟨0, 0, 0, 0⟩ :=
  (transparent_any_corner_outside_zero
    [10, 20, 30, 255, 40, 50, 60, 255, 70, 80, 90, 255, 101, 102, 103, 255] 2 2 1 0
    (by norm_num)).1

/-- The sampler's value does not depend on the scratch contents left by an
earlier call: the transparent early return hands back the constant `_ZERO`
buffer, and every other path overwrites `_px` four times and `_lr` three
times before the caller reads the returned reference.  This justifies
evaluating each pixel from the canonical zero scratch even though the
engine reuses the same module-level buffers across pixels. -/
theorem sampleBilinearRun_state_irrelevant (s : Scratch) (src : List ℕ) (W H : ℤ)
    (u v : JSV) (edge : String) :
    deref (sampleBilinearRun s src W H u v edge).1
        (sampleBilinearRun s src W H u v edge).2
      = sampleBilinear src W H u v edge := by
  simp only [sampleBilinear, sampleBilinearRun, fetchM, lerp4M]
  split <;> rfl

set_option maxHeartbeats 2000000 in
/-- C8 (code contradicts the claim and the code's own documentation):
because `fetch` returns the shared `_px` buffer, the sampler's four
"corner" reads `p00`, `p10`, `p01`, `p11` all alias the last fetch, so at
an in-bounds integer lattice point (u, v) whose +1 neighbours are also in
bounds, clamp-mode sampling returns the texel of the `(u+1, v+1)` corner
— not the texel (u, v) that exact bilinear reconstruction (the claim, the
engine's own "Bilinear blend" comment, and the unused utils
`bilinearSample`) would produce.  Source bytes are byte-valued and the
buffer is addressable within 32-bit indices. -/
theorem bilinear_lattice_returns_aliased_corner
    (src : List ℕ) (W H u v : ℤ)
    (hbytes : ∀ b ∈ src, b ≤ 255)
    (hu0 : 0 ≤ u) (huW : u + 1 < W) (hv0 : 0 ≤ v) (hvH : v + 1 < H)
    (hsize : H * W * 4 ≤ 2147483648) :
    sampleBilinear src W H (.num (u : ℚ)) (.num (v : ℚ)) "clamp"
        = texel src W (u + 1) (v + 1) ∧
    (texel src W (u + 1) (v + 1) ≠ texel src W u v →
      sampleBilinear src W H (.num (u : ℚ)) (.num (v : ℚ)) "clamp" ≠ texel src W u v) := by
  obtain ⟨hb1, hb2, hb3, hb4⟩ := texel_le_255 hbytes W (u + 1) (v + 1)
  have e00 : resolveEdge W H (.num ((u : ℤ) : ℚ)) (.num ((v : ℤ) : ℚ)) "clamp"
      = ⟨.num ((u : ℤ) : ℚ), .num ((v : ℤ) : ℚ), false⟩ :=
    resolveEdge_inBounds W H _ _ _ (by exact_mod_cast hu0)
      (by exact_mod_cast (by omega : u < W)) (by exact_mod_cast hv0)
      (by exact_mod_cast (by omega : v < H))
  have e10 : resolveEdge W H (.num ((u : ℚ) + 1)) (.num ((v : ℤ) : ℚ)) "clamp"
      = ⟨.num ((u : ℚ) + 1), .num ((v : ℤ) : ℚ), false⟩ :=
    resolveEdge_inBounds W H _ _ _ (by positivity)
      (by exact_mod_cast huW) (by exact_mod_cast hv0)
      (by exact_mod_cast (by omega : v < H))
  have e01 : resolveEdge W H (.num ((u : ℤ) : ℚ)) (.num ((v : ℚ) + 1)) "clamp"
      = ⟨.num ((u : ℤ) : ℚ), .num ((v : ℚ) + 1), false⟩ :=
    resolveEdge_inBounds W H _ _ _ (by exact_mod_cast hu0)
      (by exact_mod_cast (by omega : u < W)) (by positivity)
      (by exact_mod_cast hvH)
  have e11 : resolveEdge W H (.num ((u : ℚ) + 1)) (.num ((v : ℚ) + 1)) "clamp"
      = ⟨.num ((u : ℚ) + 1), .num ((v : ℚ) + 1), false⟩ :=
    resolveEdge_inBounds W H _ _ _ (by positivity)
      (by exact_mod_cast huW) (by positivity)
      (by exact_mod_cast hvH)
  have hcu : ((u : ℚ) + 1) = (((u + 1 : ℤ)) : ℚ) := by push_cast; ring
  have hcv : ((v : ℚ) + 1) = (((v + 1 : ℤ)) : ℚ) := by push_cast; ring
  have hfetch : fetch src W H (.num ((u : ℚ) + 1)) (.num ((v : ℚ) + 1))
      = texel src W (u + 1) (v + 1) := by
    rw [hcu, hcv]
    exact fetch_inBounds src W H (u + 1) (v + 1) (by omega) huW (by omega) hvH hsize
  have hmain : sampleBilinear src W H (.num (u : ℚ)) (.num (v : ℚ)) "clamp"
      = texel src W (u + 1) (v + 1) := by
    simp only [sampleBilinear, sampleBilinearRun, fetchM, lerp4M, deref, jsFloor,
      Int.floor_intCast, jsSub, sub_self, jsAdd, e00, e10, e01, e11,
      show (decide ("clamp" = "transparent")) = false from by decide, Bool.false_and,
      Bool.false_eq_true, if_false, hfetch]
    rw [lerp4_num_zero (texel src W (u + 1) (v + 1)) _ hb1 hb2 hb3 hb4,
      lerp4_num_zero (texel src W (u + 1) (v + 1)) _ hb1 hb2 hb3 hb4]
  exact ⟨hmain, fun hne => hmain ▸ hne⟩

theorem guard_false_of_x_neg (W H : ℤ) (x y : JSV) (h : jsLe (.num 0) x = false) :
    (jsLe (.num 0) x && jsLt x (.num (W : ℚ)) &&
     jsLe (.num 0) y && jsLt y (.num (H : ℚ))) = false := by
  simp [h]

theorem jsRem_intCast (a n : ℤ) (hn : 0 < n) (ha : 0 ≤ a) :
    jsRem (.num (a : ℚ)) (.num (n : ℚ)) = .num ((a % n : ℤ) : ℚ) := by
  simp only [jsRem]
  rw [if_neg (by exact_mod_cast hn.ne')]
  congr 1
  have htr : ratTrunc ((a : ℚ) / (n : ℚ)) = ⌊(a : ℚ) / (n : ℚ)⌋ := by
    unfold ratTrunc
    rw [if_neg (not_lt.mpr (by positivity))]
  rw [htr]
  set q := ⌊(a : ℚ) / (n : ℚ)⌋ with hq
  have hnq : (0 : ℚ) < (n : ℚ) := by exact_mod_cast hn
  have hq1 : (q : ℚ) ≤ (a : ℚ) / (n : ℚ) := Int.floor_le _
  have hq2 : (a : ℚ) / (n : ℚ) < q + 1 := Int.lt_floor_add_one _
  have hzb1 : n * q ≤ a := by
    have : (n : ℚ) * (q : ℚ) ≤ (a : ℚ) := by
      rw [mul_comm]
      exact (le_div_iff hnq).mp hq1
    exact_mod_cast this
  have hzb2 : a < n * (q + 1) := by
    have : (a : ℚ) < (n : ℚ) * ((q : ℚ) + 1) := by
      rw [mul_comm]
      exact (div_lt_iff hnq).mp hq2
    exact_mod_cast this
  have hzb2b : a < n * q + n := by
    have h3 : n * (q + 1) = n * q + n := by ring
    rw [h3] at hzb2
    exact hzb2
  have hmod : a % n = a - n * q := by
    have h1 := Int.add_mul_emod_self_left (a - n * q) n q
    have h2 : a - n * q + n * q = a := by ring
    rw [h2] at h1
    rw [h1, Int.emod_eq_of_lt (a := a - n * q) (b := n) (by omega) (by omega)]
  rw [hmod]
  push_cast
  ring

theorem modJS_intCast (a n : ℤ) (hn : 0 < n) (ha : 0 ≤ a) :
    modJS (.num (a : ℚ)) (.num (n : ℚ)) = .num ((a % n : ℤ) : ℚ) := by
  simp only [modJS]
  rw [jsRem_intCast a n hn ha,
    jsLt_num_false (show ¬ (((a % n : ℤ) : ℚ) < 0) from by
      exact_mod_cast not_lt.mpr (Int.emod_nonneg a hn.ne'))]
  simp

theorem resolveEdge_wrap_out (W H : ℤ) (x y : JSV)
    (h : (jsLe (.num 0) x && jsLt x (.num (W : ℚ)) &&
          jsLe (.num 0) y && jsLt y (.num (H : ℚ))) = false) :
    resolveEdge W H x y "wrap"
      = ⟨modJS x (.num (W : ℚ)), modJS y (.num (H : ℚ)), false⟩ := by
  unfold resolveEdge
  rw [if_neg (by simp [h]), if_neg (by decide), if_pos rfl]

theorem resolveEdge_mirror_out (W H : ℤ) (x y : JSV)
    (h : (jsLe (.num 0) x && jsLt x (.num (W : ℚ)) &&
          jsLe (.num 0) y && jsLt y (.num (H : ℚ))) = false) :
    resolveEdge W H x y "mirror"
      = ⟨mirrorIndex x (.num (W : ℚ)), mirrorIndex y (.num (H : ℚ)), false⟩ := by
  unfold resolveEdge
  rw [if_neg (by simp [h]), if_neg (by decide), if_neg (by decide), if_pos rfl]

theorem mirrorIndex_le_one (x : JSV) (nq : ℚ) (h : nq ≤ 1) :
    mirrorIndex x (.num nq) = .num 0 := by
  simp only [mirrorIndex]
  rw [if_pos h]

theorem mirrorIndex_intCast (i n : ℤ) (hn : 2 ≤ n) :
    mirrorIndex (.num (i : ℚ)) (.num (n : ℚ)) = .num ((mirrorZ i n : ℤ) : ℚ) := by
  simp only [mirrorIndex, mirrorZ]
  rw [if_neg (show ¬ ((n : ℚ) ≤ 1) from by exact_mod_cast (by omega : ¬ (n ≤ 1)))]
  have habs : jsAbs (.num (i : ℚ)) = .num ((|i| : ℤ) : ℚ) := by
    simp [jsAbs]
  have h2p : (2 : ℚ) * ((n : ℚ) - 1) = ((2 * (n - 1) : ℤ) : ℚ) := by push_cast; ring
  rw [habs, h2p, jsRem_intCast |i| (2 * (n - 1)) (by omega) (abs_nonneg i)]
  by_cases hlt : (n - 1 : ℤ) < |i| % (2 * (n - 1))
  · rw [jsLt_num_true (show ((n : ℚ) - 1) < ((|i| % (2 * (n - 1)) : ℤ) : ℚ) from by
      push_cast
      exact_mod_cast hlt)]
    rw [if_pos hlt]
    simp only [jsSub]
    congr 1
    push_cast
    ring
  · rw [jsLt_num_false (show ¬ (((n : ℚ) - 1) < ((|i| % (2 * (n - 1)) : ℤ) : ℚ)) from by
      push_cast
      exact_mod_cast hlt)]
    rw [if_neg hlt]
    simp

theorem mirrorZ_period (i n : ℤ) (hn : 2 ≤ n) :
    mirrorZ (i + 2 * (n - 1)) n = mirrorZ i n := by
  simp only [mirrorZ]
  have hP : 0 < 2 * (n - 1) := by omega
  rcases le_or_lt 0 i with hi | hi
  · rw [abs_of_nonneg hi, abs_of_nonneg (by omega : (0 : ℤ) ≤ i + 2 * (n - 1)),
      show i + 2 * (n - 1) = i + 2 * (n - 1) * 1 from by ring, Int.add_mul_emod_self_left]
  · have hRneg : (-i) % (2 * (n - 1)) = (2 * (n - 1) - i % (2 * (n - 1))) % (2 * (n - 1)) := by
      rw [Int.neg_emod, Int.sub_emod, Int.emod_self, zero_sub, Int.neg_emod]
    have h0 : 0 ≤ i % (2 * (n - 1)) := Int.emod_nonneg i (by omega)
    have h1 : i % (2 * (n - 1)) < 2 * (n - 1) := Int.emod_lt_of_pos i hP
    rcases le_or_lt 0 (i + 2 * (n - 1)) with hi2 | hi2
    · rw [abs_of_nonneg hi2, abs_of_neg hi,
        show i + 2 * (n - 1) = i + 2 * (n - 1) * 1 from by ring,
        Int.add_mul_emod_self_left, hRneg]
      rcases eq_or_lt_of_le h0 with hm0 | hm0
      · rw [← hm0, sub_zero, Int.emod_self]
        split_ifs <;> omega
      · rw [Int.emod_eq_of_lt (a := 2 * (n - 1) - i % (2 * (n - 1))) (b := 2 * (n - 1))
          (by omega) (by omega)]
        split_ifs <;> omega
    · rw [abs_of_neg hi, abs_of_neg hi2, hRneg,
        show -(i + 2 * (n - 1)) = -i + 2 * (n - 1) * (-1) from by ring,
        Int.add_mul_emod_self_left, hRneg]

/-- C7: wrap mode resolves `u = W + k` to the same in-bounds column as
`u = k` for every 0 ≤ k < W; mirror mode satisfies
`resolve(−1) = resolve(1)` and `resolve(W) = resolve(W−2)`; and the mirror
reflection is periodic with period 2·(dimension−1). -/
theorem edge_mode_round_trip
    (W H k y i n : ℤ) (hW : 1 ≤ W) (hk0 : 0 ≤ k) (hkW : k < W)
    (hy0 : 0 ≤ y) (hyH : y < H) (hn : 2 ≤ n) :
    (resolveEdge W H (.num ((W + k : ℤ) : ℚ)) (.num ((y : ℤ) : ℚ)) "wrap").x
      = (resolveEdge W H (.num ((k : ℤ) : ℚ)) (.num ((y : ℤ) : ℚ)) "wrap").x ∧
    (resolveEdge W H (.num ((-1 : ℤ) : ℚ)) (.num ((y : ℤ) : ℚ)) "mirror").x
      = (resolveEdge W H (.num ((1 : ℤ) : ℚ)) (.num ((y : ℤ) : ℚ)) "mirror").x ∧
    (resolveEdge W H (.num ((W : ℤ) : ℚ)) (.num ((y : ℤ) : ℚ)) "mirror").x
      = (resolveEdge W H (.num ((W - 2 : ℤ) : ℚ)) (.num ((y : ℤ) : ℚ)) "mirror").x ∧
    mirrorIndex (.num ((i + 2 * (n - 1) : ℤ) : ℚ)) (.num ((n : ℤ) : ℚ))
      = mirrorIndex (.num ((i : ℤ) : ℚ)) (.num ((n : ℤ) : ℚ)) := by
  have hyq0 : (0 : ℚ) ≤ ((y : ℤ) : ℚ) := by exact_mod_cast hy0
  have hyqH : ((y : ℤ) : ℚ) < (H : ℚ) := by exact_mod_cast hyH
  refine ⟨?_, ?_, ?_, ?_⟩
  · have hg : jsLt (.num ((W + k : ℤ) : ℚ)) (.num (W : ℚ)) = false :=
      jsLt_num_false (by exact_mod_cast not_lt.mpr (by omega : W ≤ W + k))
    rw [resolveEdge_wrap_out W H _ _ (guard_false_of_x_big W H _ _ hg),
      resolveEdge_inBounds W H _ _ _ (by exact_mod_cast hk0) (by exact_mod_cast hkW)
        hyq0 hyqH,
      modJS_intCast (W + k) W (by omega) (by omega)]
    have hmod : (W + k) % W = k := by
      rw [show W + k = k + W * 1 from by ring, Int.add_mul_emod_self_left,
        Int.emod_eq_of_lt hk0 hkW]
    simp [hmod]
  · have hgneg : jsLe (.num 0) (.num ((-1 : ℤ) : ℚ)) = false :=
      jsLe_num_false (by norm_num)
    have e1 := resolveEdge_mirror_out W H (.num ((-1 : ℤ) : ℚ)) (.num ((y : ℤ) : ℚ))
      (guard_false_of_x_neg W H _ _ hgneg)
    rcases (by omega : W = 1 ∨ 2 ≤ W) with hW1 | hW2
    · subst hW1
      have hgone : jsLt (.num ((1 : ℤ) : ℚ)) (.num (((1 : ℤ) : ℤ) : ℚ)) = false :=
        jsLt_num_false (by norm_num)
      have e2 := resolveEdge_mirror_out 1 H (.num ((1 : ℤ) : ℚ)) (.num ((y : ℤ) : ℚ))
        (guard_false_of_x_big 1 H _ _ hgone)
      rw [e1, e2]
      dsimp only
      rw [mirrorIndex_le_one _ _ (by norm_num), mirrorIndex_le_one _ _ (by norm_num)]
    · have e2 := resolveEdge_inBounds W H (((1 : ℤ) : ℚ)) (((y : ℤ) : ℚ)) "mirror"
        (by norm_num) (by exact_mod_cast hW2) hyq0 hyqH
      rw [e1, e2]
      dsimp only
      rw [mirrorIndex_intCast (-1) W hW2]
      have hmz : mirrorZ (-1) W = 1 := by
        simp only [mirrorZ]
        rw [show |(-1 : ℤ)| = 1 from by norm_num,
          Int.emod_eq_of_lt (by omega) (by omega), if_neg (by omega)]
      rw [hmz]
  · rcases (by omega : W = 1 ∨ W = 2 ∨ 3 ≤ W) with hW1 | hW2 | hW3
    · subst hW1
      have hgone : jsLt (.num ((1 : ℤ) : ℚ)) (.num (((1 : ℤ) : ℤ) : ℚ)) = false :=
        jsLt_num_false (by norm_num)
      have hgneg : jsLe (.num 0) (.num ((1 - 2 : ℤ) : ℚ)) = false :=
        jsLe_num_false (by norm_num)
      have e1 := resolveEdge_mirror_out 1 H (.num ((1 : ℤ) : ℚ)) (.num ((y : ℤ) : ℚ))
        (guard_false_of_x_big 1 H _ _ hgone)
      have e2 := resolveEdge_mirror_out 1 H (.num ((1 - 2 : ℤ) : ℚ)) (.num ((y : ℤ) : ℚ))
        (guard_false_of_x_neg 1 H _ _ hgneg)
      rw [e1, e2]
      dsimp only
      rw [mirrorIndex_le_one _ _ (by norm_num), mirrorIndex_le_one _ _ (by norm_num)]
    · subst hW2
      have hgW : jsLt (.num ((2 : ℤ) : ℚ)) (.num (((2 : ℤ) : ℤ) : ℚ)) = false :=
        jsLt_num_false (by norm_num)
      have e1 := resolveEdge_mirror_out 2 H (.num ((2 : ℤ) : ℚ)) (.num ((y : ℤ) : ℚ))
        (guard_false_of_x_big 2 H _ _ hgW)
      have e2 := resolveEdge_inBounds 2 H (((2 - 2 : ℤ) : ℚ)) (((y : ℤ) : ℚ)) "mirror"
        (by norm_num) (by norm_num) hyq0 hyqH
      rw [e1, e2]
      dsimp only
      rw [mirrorIndex_intCast 2 2 (by norm_num)]
      have hmz : mirrorZ 2 2 = 0 := by
        simp only [mirrorZ]
        norm_num
      rw [hmz]
      norm_num
    · have hgW : jsLt (.num ((W : ℤ) : ℚ)) (.num ((W : ℤ) : ℚ)) = false :=
        jsLt_num_false (by exact_mod_cast lt_irrefl W)
      have e1 := resolveEdge_mirror_out W H (.num ((W : ℤ) : ℚ)) (.num ((y : ℤ) : ℚ))
        (guard_false_of_x_big W H _ _ hgW)
      have e2 := resolveEdge_inBounds W H (((W - 2 : ℤ) : ℚ)) (((y : ℤ) : ℚ)) "mirror"
        (by exact_mod_cast (by omega : (0 : ℤ) ≤ W - 2))
        (by exact_mod_cast (by omega : W - 2 < W)) hyq0 hyqH
      rw [e1, e2]
      dsimp only
      rw [mirrorIndex_intCast W W (by omega)]
      have hmz : mirrorZ W W = W - 2 := by
        simp only [mirrorZ]
        rw [abs_of_nonneg (by omega : (0 : ℤ) ≤ W),
          Int.emod_eq_of_lt (by omega) (by omega), if_pos (by omega)]
        ring
      rw [hmz]
  · rw [mirrorIndex_intCast _ n hn, mirrorIndex_intCast _ n hn, mirrorZ_period i n hn]

/-- C7, witness for the round-trip theorem at a concrete input. -/
theorem edge_mode_round_trip_witness :
    (resolveEdge 3 3 (.num ((3 + 1 : ℤ) : ℚ)) (.num ((0 : ℤ) : ℚ)) "wrap").x
      = (resolveEdge 3 3 (.num ((1 : ℤ) : ℚ)) (.num ((0 : ℤ) : ℚ)) "wrap").x :=
  (edge_mode_round_trip 3 3 1 0 (-5) 3 (by norm_num) (by norm_num) (by norm_num)
    (by norm_num) (by norm_num) (by norm_num)).1

/-- C8, witness at a concrete input: on a 2×2 source the sampler at the
lattice point (0, 0) in clamp mode returns the texel of corner (1, 1),
namely (101,102,103,255), and not the texel (0, 0) = (10,20,30,255). -/
theorem bilinear_lattice_returns_aliased_corner_witness :
    sampleBilinear [10, 20, 30, 255, 40, 50, 60, 255, 70, 80, 90, 255, 101, 102, 103, 255]
        2 2 (.num ((0 : ℤ) : ℚ)) (.num ((0 : ℤ) : ℚ)) "clamp"
      = texel [10, 20, 30, 255, 40, 50, 60, 255, 70, 80, 90, 255, 101, 102, 103, 255] 2 1 1 ∧
    texel [10, 20, 30, 255, 40, 50, 60, 255, 70, 80, 90, 255, 101, 102, 103, 255] 2 1 1
      = ⟨101, 102, 103, 255⟩ ∧
    texel [10, 20, 30, 255, 40, 50, 60, 255, 70, 80, 90, 255, 101, 102, 103, 255] 2 0 0
      = ⟨10, 20, 30, 255⟩ ∧
    (RGBA.mk 101 102 103 255) ≠ ⟨10, 20, 30, 255⟩ :=
  ⟨(bilinear_lattice_returns_aliased_corner
      [10, 20, 30, 255, 40, 50, 60, 255, 70, 80, 90, 255, 101, 102, 103, 255] 2 2 0 0
      (by decide) (by decide) (by decide) (by decide) (by decide) (by decide)).1,
    by simp [texel], by simp [texel], by decide⟩

/-- C10: the angular filter's per-pixel solve is bounded: the iteration
budget computed from the `iterations` parameter is always clamped into
[1, 20]; each loop step takes the fixed-point fallback
`θ ← Θ − A·sin(mθ + φ)` exactly when the derivative magnitude
`|1 + A·m·cos(mθ + φ)|` is below `1e-4`, and the Newton step otherwise;
and the solver result is obtained by exactly that many step applications
from the initial guess `θ₀ = Θ` (so the per-pixel computation always
terminates, in at most 20 iterations).  Stated for every rational
parameter record and all abstract `sin`/`cos` evaluations. -/
theorem angular_solver_bounded_and_fallback
    (iterations A m phi Theta th : ℚ) (sinF cosF : ℚ → ℚ) :
    1 ≤ angularMaxIters iterations ∧ angularMaxIters iterations ≤ 20 ∧
    (|1 + A * m * cosF (m * th + phi)| < 1 / 10000 →
      angularStep sinF cosF A m phi Theta th = Theta - A * sinF (m * th + phi)) ∧
    (¬ |1 + A * m * cosF (m * th + phi)| < 1 / 10000 →
      angularStep sinF cosF A m phi Theta th
        = th - (th + A * sinF (m * th + phi) - Theta) / (1 + A * m * cosF (m * th + phi))) ∧
    angularSolve sinF cosF A m phi Theta (angularMaxIters iterations)
      = angularStep sinF cosF A m phi Theta
          (angularSolve sinF cosF A m phi Theta (angularMaxIters iterations - 1)) := by
  have key : angularMaxIters iterations
      = (max 1 (min 20 ⌊if iterations = 0 then (6 : ℚ) else iterations⌋)).toNat := by
    simp only [angularMaxIters]
  have hlo : (1 : ℤ) ≤ max 1 (min 20 ⌊if iterations = 0 then (6 : ℚ) else iterations⌋) :=
    le_max_left _ _
  have hhi : max 1 (min 20 ⌊if iterations = 0 then (6 : ℚ) else iterations⌋) ≤ 20 :=
    max_le (by norm_num) (min_le_left _ _)
  have h1 : 1 ≤ angularMaxIters iterations := by
    rw [key]
    omega
  refine ⟨h1, ?_, ?_, ?_, ?_⟩
  · rw [key]
    omega
  · intro h
    unfold angularStep
    rw [if_pos h]
  · intro h
    unfold angularStep
    rw [if_neg h]
  · obtain ⟨j, hj⟩ : ∃ j, angularMaxIters iterations = j + 1 :=
      ⟨angularMaxIters iterations - 1, by omega⟩
    rw [hj]
    simp only [Nat.add_sub_cancel]
    rfl

/-- C10, witness: the solver pieces evaluated at a concrete parameter
record (default iterations 6; zero amplitude, so the derivative is 1 and
the Newton branch is taken). -/
theorem angular_solver_bounded_and_fallback_witness :
    1 ≤ angularMaxIters 6 ∧ angularMaxIters 6 ≤ 20 ∧
    angularStep (fun _ => 0) (fun _ => 0) 0 0 0 0 0
      = 0 - (0 + 0 * (0 : ℚ) - 0) / (1 + 0 * 0 * (0 : ℚ)) := by
  refine ⟨(angular_solver_bounded_and_fallback 6 0 0 0 0 0 (fun _ => 0) (fun _ => 0)).1,
    (angular_solver_bounded_and_fallback 6 0 0 0 0 0 (fun _ => 0) (fun _ => 0)).2.1, ?_⟩
  have h := (angular_solver_bounded_and_fallback 6 0 0 0 0 0
    (fun _ => 0) (fun _ => 0)).2.2.2.1 (by norm_num)
  simpa using h

end DistortLab
